import Mathlib

set_option maxRecDepth 100000

/-!
Verification of the hook-placement fixer (`fix-hooks-final.py`).

The script applies one regex substitution to each file of a fixed list:

  pattern
    (export const \w+ = (?:React\.memo<[^>]+>\()?\(\{)\n  (const \{ colors[^\n]+\n  const styles[^\n]+)\n\n((?:  [^\n]+,?\n)+)(\}\) => \{)
  replacement (groups g1 g2 g3 g4)
    g1 ++ "\n" ++ g3 ++ g4 ++ "\n  " ++ g2 ++ "\n"

Below, the matcher is embedded as a deterministic character-list scanner.
The regex is backtracking-greedy, but each of its quantified pieces is
followed by a literal its character class excludes (`\w+` by a space,
`[^>]+` by `>`, `[^\n]+` by `\n`, and the `(?:  [^\n]+,?\n)+` loop by a
closer that starts with `}` while a loop iteration starts with two
spaces), so greedy matching with backtracking coincides with the
maximal-munch scan implemented here.  `re.sub` scans positions left to
right, substitutes each leftmost non-overlapping match and resumes right
after it, which `rewriteAux` mirrors.  Python's `\w` also accepts
non-ASCII word characters; `isWordChar` keeps the ASCII part, which is
exact on every input considered here.
-/

namespace HookFix

/-- ASCII part of the regex class `\w`. -/
def isWordChar (c : Char) : Bool := c.isAlphanum || c == '_'

/-- Strip an expected literal from the front of the text: `some r` when
`s = p ++ r`, otherwise `none`. -/
def dropLit : List Char → List Char → Option (List Char)
  | [], s => some s
  | _ :: _, [] => none
  | p :: ps, c :: cs => if c = p then dropLit ps cs else none

def litHeader : List Char := "export const ".data

def litEq : List Char := " = ".data

def litMemoOpen : List Char := "React.memo<".data

def litParenBrace : List Char := "(\x7b".data

def litNlSpSp : List Char := "\n  ".data

def litNlNl : List Char := "\n\n".data

def litColors : List Char := "const \x7b colors".data

def litStyles : List Char := "\n  const styles".data

def litStylesWord : List Char := "const styles".data

def litGtParen : List Char := ">(".data

def litSpSp : List Char := "  ".data

def litNl : List Char := "\n".data

/-- The fixed closer `\}\) => \{` of the pattern (group 4). -/
def closerText : List Char := "\x7d) => \x7b".data

/-- Parse the optional wrapper `React\.memo<[^>]+>\(`.  Returns the text
between the angle brackets and the remainder. -/
def matchMemo (s : List Char) : Option (List Char × List Char) :=
  match dropLit litMemoOpen s with
  | none => none
  | some s1 =>
    if (s1.takeWhile (fun c => c ≠ '>')).isEmpty then none
    else
      match dropLit litGtParen (s1.dropWhile (fun c => c ≠ '>')) with
      | some r => some (s1.takeWhile (fun c => c ≠ '>'), r)
      | none => none

/-- Parse group 1, `export const \w+ = (?:React\.memo<[^>]+>\()?\(\{`.
Returns the component name, the optional memo wrapper content and the
remainder.  If the optional wrapper parses but `(\{` does not follow, the
regex engine backtracks and retries without the wrapper, which the
fallback branch reproduces. -/
def matchHeader (s : List Char) : Option (List Char × Option (List Char) × List Char) :=
  match dropLit litHeader s with
  | none => none
  | some s1 =>
    if (s1.takeWhile isWordChar).isEmpty then none
    else
      match dropLit litEq (s1.dropWhile isWordChar) with
      | none => none
      | some s3 =>
        match matchMemo s3 with
        | some (inner, s4) =>
          match dropLit litParenBrace s4 with
          | some s5 => some (s1.takeWhile isWordChar, some inner, s5)
          | none =>
            match dropLit litParenBrace s3 with
            | some s5 => some (s1.takeWhile isWordChar, none, s5)
            | none => none
        | none =>
          match dropLit litParenBrace s3 with
          | some s5 => some (s1.takeWhile isWordChar, none, s5)
          | none => none

/-- Parse group 2, `const \{ colors[^\n]+\n  const styles[^\n]+`.
Returns the tails of the two hook lines and the remainder. -/
def matchHooks (s : List Char) : Option (List Char × List Char × List Char) :=
  match dropLit litColors s with
  | none => none
  | some s1 =>
    if (s1.takeWhile (fun c => c ≠ '\n')).isEmpty then none
    else
      match dropLit litStyles (s1.dropWhile (fun c => c ≠ '\n')) with
      | none => none
      | some s2 =>
        if (s2.takeWhile (fun c => c ≠ '\n')).isEmpty then none
        else
          some (s1.takeWhile (fun c => c ≠ '\n'), s2.takeWhile (fun c => c ≠ '\n'),
            s2.dropWhile (fun c => c ≠ '\n'))

/-- One iteration of group 3's loop, `  [^\n]+,?\n`: a line made of two
spaces and a non-empty newline-free tail (`,?` is subsumed by `[^\n]+`).
Returns the tail after the two spaces (trailing comma included) and the
remainder after the newline. -/
def parseParamLine (s : List Char) : Option (List Char × List Char) :=
  match dropLit litSpSp s with
  | none => none
  | some rest =>
    if (rest.takeWhile (fun c => c ≠ '\n')).isEmpty then none
    else
      match dropLit litNl (rest.dropWhile (fun c => c ≠ '\n')) with
      | some r2 => some (rest.takeWhile (fun c => c ≠ '\n'), r2)
      | none => none

/-- Group 3, `(?:  [^\n]+,?\n)+`: one or more param lines, greedily.  The
fuel only bounds the recursion; every iteration consumes at least four
characters, so `length + 1` fuel never runs out before the scan stops on
its own. -/
def parseParams : Nat → List Char → Option (List (List Char) × List Char)
  | 0, _ => none
  | fuel + 1, s =>
    match parseParamLine s with
    | none => none
    | some (line, r) =>
      match parseParams fuel r with
      | some (more, r2) => some (line :: more, r2)
      | none => some ([line], r)

/-- The captured pieces of one match of the pattern. -/
structure MatchParts where
  name : List Char
  memo : Option (List Char)
  r1 : List Char
  r2 : List Char
  params : List (List Char)
deriving DecidableEq

/-- Attempt to match the whole pattern at the head of `s`.  On success,
returns the captured pieces and the text after the match. -/
def matchAt (s : List Char) : Option (MatchParts × List Char) :=
  match matchHeader s with
  | none => none
  | some (nm, memo, s1) =>
    match dropLit litNlSpSp s1 with
    | none => none
    | some s2 =>
      match matchHooks s2 with
      | none => none
      | some (r1, r2, s3) =>
        match dropLit litNlNl s3 with
        | none => none
        | some s4 =>
          match parseParams (s4.length + 1) s4 with
          | none => none
          | some (ps, s5) =>
            match dropLit closerText s5 with
            | none => none
            | some rest => some (⟨nm, memo, r1, r2, ps⟩, rest)

/-- The text of the optional `React.memo<...>(` wrapper. -/
def memoText : Option (List Char) → List Char
  | none => []
  | some t => litMemoOpen ++ t ++ '>' :: '(' :: []

/-- The text covered by group 1. -/
def g1Text (nm : List Char) (memo : Option (List Char)) : List Char :=
  litHeader ++ nm ++ litEq ++ memoText memo ++ litParenBrace

/-- The text covered by group 2 (without the two-space indent of its
first line, which the pattern consumes before the group opens). -/
def hooksText (r1 r2 : List Char) : List Char :=
  litColors ++ r1 ++ '\n' :: ' ' :: ' ' :: (litStylesWord ++ r2)

/-- The text covered by group 3. -/
def paramsText (ps : List (List Char)) : List Char :=
  (ps.map fun p => ' ' :: ' ' :: (p ++ [ '\n' ])).flatten

/-- The full text span consumed by a match. -/
def matchedText (m : MatchParts) : List Char :=
  g1Text m.name m.memo ++
    '\n' :: ' ' :: ' ' ::
      (hooksText m.r1 m.r2 ++ '\n' :: '\n' :: (paramsText m.params ++ closerText))

/-- The text the replacer emits for a match:
`g1 ++ "\n" ++ g3 ++ g4 ++ "\n  " ++ g2 ++ "\n"`. -/
def replacement (m : MatchParts) : List Char :=
  g1Text m.name m.memo ++
    '\n' :: (paramsText m.params ++ closerText ++
      '\n' :: ' ' :: ' ' :: (hooksText m.r1 m.r2 ++ [ '\n' ]))

/-- Left-to-right scan of `re.sub`: at each position try the pattern;
on a match emit the replacement and resume after the matched span, else
copy one character and move on.  The fuel is the input length, which is
enough because a match always consumes at least one character. -/
def rewriteAux : Nat → List Char → List Char
  | 0, s => s
  | _ + 1, [] => []
  | fuel + 1, c :: rest =>
    match matchAt (c :: rest) with
    | some (m, tail) => replacement m ++ rewriteAux fuel tail
    | none => c :: rewriteAux fuel rest

/-- `re.sub(pattern, replacer, content)`. -/
def rewriteText (s : List Char) : List Char := rewriteAux s.length s

/-- The engine's contract `rewrite(text) -> (newText, changed)`.  The
script computes `changed` as `content != original` after the
substitution. -/
def rewrite (s : List Char) : List Char × Bool :=
  (rewriteText s, if rewriteText s = s then false else true)

/-- Shape invariants of the pieces `matchAt` can produce. -/
def wfParts (m : MatchParts) : Prop :=
  m.name ≠ [] ∧ (∀ c ∈ m.name, isWordChar c = true) ∧
  (∀ t, m.memo = some t → t ≠ [] ∧ '>' ∉ t) ∧
  m.r1 ≠ [] ∧ '\n' ∉ m.r1 ∧ m.r2 ≠ [] ∧ '\n' ∉ m.r2 ∧
  m.params ≠ [] ∧ (∀ p ∈ m.params, p ≠ [] ∧ '\n' ∉ p)

/-! ## Batch driver (`fix_file` over the fixed file list)

The driver reads each listed file, applies the rewrite, writes the text
back when it changed, and returns `True` exactly then; a missing file
(`FileNotFoundError`) and any other per-file failure are caught and
yield `False`.  The filesystem is modelled as a map from paths to
entries; `FSEntry.err` stands for a file whose read raises an exception
other than `FileNotFoundError`. -/

inductive FSEntry where
  | missing : FSEntry
  | err : FSEntry
  | ok : List Char → FSEntry
deriving DecidableEq

/-- Per-file outcome distinguished by the script's four print branches. -/
inductive Outcome where
  | fixed : Outcome
  | skipNoChange : Outcome
  | skipMissing : Outcome
  | error : Outcome
deriving DecidableEq

/-- `fix_file`: one file's processing, returning the outcome (the
script's return value is `True` iff the outcome is `fixed`) and the
filesystem after the optional write-back. -/
def fixFile (fs : String → FSEntry) (p : String) : Outcome × (String → FSEntry) :=
  match fs p with
  | FSEntry.missing => (Outcome.skipMissing, fs)
  | FSEntry.err => (Outcome.error, fs)
  | FSEntry.ok t =>
    if (rewrite t).2 then
      (Outcome.fixed, fun q => if q = p then FSEntry.ok (rewrite t).1 else fs q)
    else (Outcome.skipNoChange, fs)

/-- `fixed = sum(fix_file(f) for f in files)`: sequential left-to-right
processing; returns the outcome list, the final filesystem and the
aggregate count of fixed files. -/
def runBatch (fs : String → FSEntry) : List String → List Outcome × (String → FSEntry) × Nat
  | [] => ([], fs, 0)
  | p :: rest =>
    let r := fixFile fs p
    let rr := runBatch r.2 rest
    (r.1 :: rr.1, rr.2.1, rr.2.2 + (if r.1 = Outcome.fixed then 1 else 0))

/-! ## Concrete inputs and outputs used by the claims -/

/-- Scenario A input: header, the two hook lines, a blank line, two
param lines, closer. -/
def scenA : List Char :=
  "export const Foo = (\x7b\n  const \x7b colors \x7d = useX();\n  const styles = useStyles();\n\n  name,\n  value,\n\x7d) => \x7b\n".data

/-- The text the script actually produces from `scenA`: block reordered,
relocated hook lines at the same two-space indentation. -/
def scenAOut : List Char :=
  "export const Foo = (\x7b\n  name,\n  value,\n\x7d) => \x7b\n  const \x7b colors \x7d = useX();\n  const styles = useStyles();\n\n".data

/-- The output Scenario A's claim describes: hook lines re-indented one
level deeper (four spaces). -/
def scenADeep : List Char :=
  "export const Foo = (\x7b\n  name,\n  value,\n\x7d) => \x7b\n    const \x7b colors \x7d = useX();\n    const styles = useStyles();\n\n".data

/-- Scenario B input: as `scenA` but with no blank line between the hook
lines and the param lines. -/
def scenB : List Char :=
  "export const Foo = (\x7b\n  const \x7b colors \x7d = useX();\n  const styles = useStyles();\n  name,\n  value,\n\x7d) => \x7b\n".data

/-- Input refuting idempotence: the second hook line smuggles a header
shape, and the text after the closer continues with a hook-shaped
suffix, so relocating the hooks assembles a fresh match. -/
def t1c : List Char :=
  "export const A = (\x7b\n  const \x7b colors \x7d = x();\n  const styles = y(); export const Z = (\x7b\n\n  p,\n\x7d) => \x7b  const \x7b colors \x7d = q();\n  const styles = r();\n\n  p,\n\x7d) => \x7b\n".data

/-- Input whose "param" line `foo bar baz` is not a bare identifier. -/
def t6 : List Char :=
  "export const Foo = (\x7b\n  const \x7b colors \x7d = a();\n  const styles = b();\n\n  foo bar baz\n\x7d) => \x7b\n".data

/-- What the script produces from `t6`: the block is matched and
rewritten all the same. -/
def t6out : List Char :=
  "export const Foo = (\x7b\n  foo bar baz\n\x7d) => \x7b\n  const \x7b colors \x7d = a();\n  const styles = b();\n\n".data

/-- Input whose header occurrence sits behind a line comment. -/
def t8 : List Char :=
  "// export const Foo = (\x7b\n  const \x7b colors \x7d = a();\n  const styles = b();\n\n  x,\n\x7d) => \x7b\n".data

/-- What the script produces from `t8`: the commented-out occurrence is
matched and rewritten. -/
def t8out : List Char :=
  "// export const Foo = (\x7b\n  x,\n\x7d) => \x7b\n  const \x7b colors \x7d = a();\n  const styles = b();\n\n".data

/-- Input whose header occurrence follows other code on the same line. -/
def t8b : List Char :=
  "const z = 1; export const Bar = (\x7b\n  const \x7b colors \x7d = a();\n  const styles = b();\n\n  y,\n\x7d) => \x7b\n".data

/-- What the script produces from `t8b`. -/
def t8bOut : List Char :=
  "const z = 1; export const Bar = (\x7b\n  y,\n\x7d) => \x7b\n  const \x7b colors \x7d = a();\n  const styles = b();\n\n".data

/-- A file with two non-overlapping defect blocks and text before,
between and after them. -/
def twoIn : List Char :=
  "export const A = (\x7b\n  const \x7b colors \x7d = a();\n  const styles = b();\n\n  x,\n\x7d) => \x7b\n  body();\n\x7d;\n\nexport const B = (\x7b\n  const \x7b colors \x7d = c();\n  const styles = d();\n\n  y,\n\x7d) => \x7b\n  more();\n\x7d;\n".data

/-- What the script produces from `twoIn`: both blocks corrected, all
surrounding text unchanged. -/
def twoOut : List Char :=
  "export const A = (\x7b\n  x,\n\x7d) => \x7b\n  const \x7b colors \x7d = a();\n  const styles = b();\n\n  body();\n\x7d;\n\nexport const B = (\x7b\n  y,\n\x7d) => \x7b\n  const \x7b colors \x7d = c();\n  const styles = d();\n\n  more();\n\x7d;\n".data

/-- A text containing no occurrence of the pattern. -/
def t4 : List Char := "no defect here\n".data

/-- The parts `matchAt` extracts from `scenA`. -/
def mA : MatchParts :=
  ⟨ "Foo".data, none, " \x7d = useX();".data, " = useStyles();".data,
    [ "name,".data, "value,".data ] ⟩

/-- The remainder after `scenA`'s match. -/
def restNl : List Char := [ '\n' ]

/-- Match parts used by the frame-property witness. -/
def mW : MatchParts :=
  ⟨ "Foo".data, none, " \x7d = a();".data, " = b();".data, [ "x,".data ] ⟩

/-- Unmatched text placed before the block in the frame witness. -/
def aW : List Char := "A\n".data

/-- Unmatched text placed after the block in the frame witness. -/
def tailW : List Char := [ '\n' ]

/-- A filesystem on which every path is missing (driver witness). -/
def fsW : String → FSEntry := fun _ => FSEntry.missing

/-- A path used by the driver witness. -/
def pW : String := "a"

/-! ## Soundness of the matcher: a successful match decomposes the input -/

theorem dropLit_sound : ∀ p s r : List Char, dropLit p s = some r → s = p ++ r := by
  intro p
  induction p with
  | nil =>
    intro s r h
    simp only [dropLit, Option.some.injEq] at h
    simp [h]
  | cons a as ih =>
    intro s r h
    cases s with
    | nil => simp [dropLit] at h
    | cons c cs =>
      by_cases hc : c = a
      · subst hc
        simp only [dropLit, if_pos rfl] at h
        simpa using ih cs r h
      · simp [dropLit, hc] at h

theorem takeWhile_sound (q : Char → Bool) (l : List Char) :
    l = l.takeWhile q ++ l.dropWhile q := (List.takeWhile_append_dropWhile q l).symm

theorem litStyles_split : litStyles = '\n' :: ' ' :: ' ' :: litStylesWord := rfl

theorem litGtParen_split : litGtParen = '>' :: '(' :: [] := rfl

theorem litNlSpSp_split : litNlSpSp = '\n' :: ' ' :: ' ' :: [] := rfl

theorem litNlNl_split : litNlNl = '\n' :: '\n' :: [] := rfl

theorem matchMemo_sound (s inner r : List Char) (h : matchMemo s = some (inner, r)) :
    s = litMemoOpen ++ inner ++ '>' :: '(' :: r ∧ inner ≠ [] ∧ '>' ∉ inner := by
  unfold matchMemo at h
  split at h
  · exact absurd h (by simp)
  · rename_i s1 h1
    split at h
    · exact absurd h (by simp)
    · rename_i hne
      split at h
      · rename_i r0 h2
        simp only [Option.some.injEq, Prod.mk.injEq] at h
        obtain ⟨hi, hr⟩ := h
        subst hi; subst hr
        refine ⟨?_, by simpa [List.isEmpty_iff] using hne, ?_⟩
        · rw [dropLit_sound _ _ _ h1]
          conv_lhs => rw [takeWhile_sound (fun c => c ≠ '>') s1]
          rw [dropLit_sound _ _ _ h2, litGtParen_split]
          simp
        · intro hmem
          have := List.mem_takeWhile_imp hmem
          simp at this
      · exact absurd h (by simp)

theorem matchHeader_sound (s nm : List Char) (memo : Option (List Char)) (r : List Char)
    (h : matchHeader s = some (nm, memo, r)) :
    s = g1Text nm memo ++ r ∧ nm ≠ [] ∧ (∀ c ∈ nm, isWordChar c = true) ∧
      (∀ t, memo = some t → t ≠ [] ∧ '>' ∉ t) := by
  unfold matchHeader at h
  split at h
  · exact absurd h (by simp)
  · rename_i s1 h1
    split at h
    · exact absurd h (by simp)
    · rename_i hne
      split at h
      · exact absurd h (by simp)
      · rename_i s3 h3
        have hwf : ∀ c ∈ s1.takeWhile isWordChar, isWordChar c = true := by
          intro c hc
          exact List.mem_takeWhile_imp hc
        have hnomem : (s1.takeWhile isWordChar ≠ []) := by
          simpa [List.isEmpty_iff] using hne
        split at h
        · rename_i inner s4 hmemo
          obtain ⟨hs3, hinne, hgt⟩ := matchMemo_sound _ _ _ hmemo
          split at h
          · rename_i s5 h5
            simp only [Option.some.injEq, Prod.mk.injEq] at h
            obtain ⟨ha, hb, hc⟩ := h
            subst ha; subst hb; subst hc
            refine ⟨?_, hnomem, hwf, ?_⟩
            · rw [dropLit_sound _ _ _ h1]
              conv_lhs => rw [takeWhile_sound isWordChar s1]
              rw [dropLit_sound _ _ _ h3, hs3, dropLit_sound _ _ _ h5]
              simp [g1Text, memoText]
            · intro t ht
              simp only [Option.some.injEq] at ht
              subst ht
              exact ⟨hinne, hgt⟩
          · split at h
            · rename_i s5 h5
              simp only [Option.some.injEq, Prod.mk.injEq] at h
              obtain ⟨ha, hb, hc⟩ := h
              subst ha; subst hb; subst hc
              refine ⟨?_, hnomem, hwf, by simp⟩
              rw [dropLit_sound _ _ _ h1]
              conv_lhs => rw [takeWhile_sound isWordChar s1]
              rw [dropLit_sound _ _ _ h3, dropLit_sound _ _ _ h5]
              simp [g1Text, memoText]
            · exact absurd h (by simp)
        · split at h
          · rename_i s5 h5
            simp only [Option.some.injEq, Prod.mk.injEq] at h
            obtain ⟨ha, hb, hc⟩ := h
            subst ha; subst hb; subst hc
            refine ⟨?_, hnomem, hwf, by simp⟩
            rw [dropLit_sound _ _ _ h1]
            conv_lhs => rw [takeWhile_sound isWordChar s1]
            rw [dropLit_sound _ _ _ h3, dropLit_sound _ _ _ h5]
            simp [g1Text, memoText]
          · exact absurd h (by simp)

theorem matchHooks_sound (s r1 r2 r : List Char)
    (h : matchHooks s = some (r1, r2, r)) :
    s = hooksText r1 r2 ++ r ∧
      r1 ≠ [] ∧ '\n' ∉ r1 ∧ r2 ≠ [] ∧ '\n' ∉ r2 := by
  unfold matchHooks at h
  split at h
  · exact absurd h (by simp)
  · rename_i s1 h1
    split at h
    · exact absurd h (by simp)
    · rename_i hne1
      split at h
      · exact absurd h (by simp)
      · rename_i s2 h2
        split at h
        · exact absurd h (by simp)
        · rename_i hne2
          simp only [Option.some.injEq, Prod.mk.injEq] at h
          obtain ⟨ha, hb, hc⟩ := h
          subst ha; subst hb; subst hc
          refine ⟨?_, by simpa [List.isEmpty_iff] using hne1, ?_,
            by simpa [List.isEmpty_iff] using hne2, ?_⟩
          · rw [dropLit_sound _ _ _ h1]
            conv_lhs => rw [takeWhile_sound (fun c => c ≠ '\n') s1]
            rw [dropLit_sound _ _ _ h2]
            conv_lhs => rw [takeWhile_sound (fun c => c ≠ '\n') s2]
            rw [litStyles_split]
            simp [hooksText]
          · intro hmem
            have := List.mem_takeWhile_imp hmem
            simp at this
          · intro hmem
            have := List.mem_takeWhile_imp hmem
            simp at this

theorem parseParamLine_sound (s line r : List Char)
    (h : parseParamLine s = some (line, r)) :
    s = ' ' :: ' ' :: (line ++ '\n' :: r) ∧ line ≠ [] ∧ '\n' ∉ line := by
  unfold parseParamLine at h
  split at h
  · exact absurd h (by simp)
  · rename_i rest h1
    split at h
    · exact absurd h (by simp)
    · rename_i hne
      split at h
      · rename_i r2 h2
        simp only [Option.some.injEq, Prod.mk.injEq] at h
        obtain ⟨ha, hb⟩ := h
        subst ha; subst hb
        refine ⟨?_, by simpa [List.isEmpty_iff] using hne, ?_⟩
        · rw [dropLit_sound _ _ _ h1]
          conv_lhs => rw [takeWhile_sound (fun c => c ≠ '\n') rest]
          rw [dropLit_sound _ _ _ h2]
          simp [litSpSp, litNl]
        · intro hmem
          have := List.mem_takeWhile_imp hmem
          simp at this
      · exact absurd h (by simp)

theorem parseParams_sound : ∀ (fuel : Nat) (s : List Char) (ps : List (List Char))
    (r : List Char), parseParams fuel s = some (ps, r) →
    s = paramsText ps ++ r ∧ ps ≠ [] ∧ ∀ p ∈ ps, p ≠ [] ∧ '\n' ∉ p := by
  intro fuel
  induction fuel with
  | zero => intro s ps r h; exact absurd h (by simp [parseParams])
  | succ f ih =>
    intro s ps r h
    unfold parseParams at h
    split at h
    · exact absurd h (by simp)
    · rename_i line r1 h1
      obtain ⟨hs, hlne, hlnl⟩ := parseParamLine_sound _ _ _ h1
      split at h
      · rename_i more r2 h2
        simp only [Option.some.injEq, Prod.mk.injEq] at h
        obtain ⟨ha, hb⟩ := h
        subst ha; subst hb
        obtain ⟨hr1, hmne, hmwf⟩ := ih _ _ _ h2
        refine ⟨?_, by simp, ?_⟩
        · rw [hs, hr1]
          simp [paramsText]
        · intro p hp
          rcases List.mem_cons.mp hp with hp | hp
          · subst hp; exact ⟨hlne, hlnl⟩
          · exact hmwf p hp
      · simp only [Option.some.injEq, Prod.mk.injEq] at h
        obtain ⟨ha, hb⟩ := h
        subst ha; subst hb
        refine ⟨?_, by simp, ?_⟩
        · rw [hs]
          simp [paramsText]
        · intro p hp
          rcases List.mem_singleton.mp hp with hp
          subst hp; exact ⟨hlne, hlnl⟩

theorem matchAt_sound (s : List Char) (m : MatchParts) (rest : List Char)
    (h : matchAt s = some (m, rest)) :
    s = matchedText m ++ rest ∧ wfParts m := by
  unfold matchAt at h
  split at h
  · exact absurd h (by simp)
  · rename_i nm memo s1 h1
    split at h
    · exact absurd h (by simp)
    · rename_i s2 h2
      split at h
      · exact absurd h (by simp)
      · rename_i r1 r2 s3 h3
        split at h
        · exact absurd h (by simp)
        · rename_i s4 h4
          split at h
          · exact absurd h (by simp)
          · rename_i ps s5 h5
            split at h
            · exact absurd h (by simp)
            · rename_i r0 h6
              simp only [Option.some.injEq, Prod.mk.injEq] at h
              obtain ⟨ha, hb⟩ := h
              subst ha; subst hb
              obtain ⟨hdr, hnmne, hnmwf, hmemowf⟩ := matchHeader_sound _ _ _ _ h1
              obtain ⟨hhk, h1ne, h1nl, h2ne, h2nl⟩ := matchHooks_sound _ _ _ _ h3
              obtain ⟨hpp, hpne, hpwf⟩ := parseParams_sound _ _ _ _ h5
              constructor
              · rw [hdr, dropLit_sound _ _ _ h2, hhk, dropLit_sound _ _ _ h4, hpp,
                  dropLit_sound _ _ _ h6, litNlSpSp_split, litNlNl_split]
                simp [matchedText]
              · exact ⟨hnmne, hnmwf, hmemowf, h1ne, h1nl, h2ne, h2nl, hpne, hpwf⟩

/-! ## Properties of the substitution scan -/

theorem repl_len (m : MatchParts) :
    (replacement m).length = (matchedText m).length := by
  simp [replacement, matchedText]
  omega

theorem matchedText_pos (m : MatchParts) : 0 < (matchedText m).length := by
  simp [matchedText, g1Text, litHeader]

theorem matchAt_cons_tail_le (c : Char) (cs : List Char) (m : MatchParts)
    (tail : List Char) (h : matchAt (c :: cs) = some (m, tail)) :
    tail.length ≤ cs.length := by
  have hs := (matchAt_sound _ _ _ h).1
  have hl : (c :: cs).length = (matchedText m).length + tail.length := by
    rw [hs]; simp
  have := matchedText_pos m
  simp at hl
  omega

theorem rewriteAux_len : ∀ (fuel : Nat) (s : List Char), s.length ≤ fuel →
    (rewriteAux fuel s).length = s.length := by
  intro fuel
  induction fuel with
  | zero => intro s _; rfl
  | succ f ih =>
    intro s hf
    cases s with
    | nil => rfl
    | cons c cs =>
      cases hm : matchAt (c :: cs) with
      | none =>
        simp only [rewriteAux, hm]
        simp only [List.length_cons]
        rw [ih cs (by simpa using Nat.le_of_succ_le_succ hf)]
      | some pr =>
        obtain ⟨m, tail⟩ := pr
        have hs := (matchAt_sound _ _ _ hm).1
        have htail : tail.length ≤ f := by
          have := matchAt_cons_tail_le c cs m tail hm
          simp at hf
          omega
        simp only [rewriteAux, hm]
        rw [List.length_append, ih tail htail, repl_len]
        rw [hs, List.length_append]

theorem rewriteAux_nomatch : ∀ (fuel : Nat) (s : List Char),
    (∀ i, i ≤ s.length → matchAt (s.drop i) = none) →
    rewriteAux fuel s = s := by
  intro fuel
  induction fuel with
  | zero => intro s _; rfl
  | succ f ih =>
    intro s h
    cases s with
    | nil => rfl
    | cons c cs =>
      have h0 : matchAt (c :: cs) = none := by
        have := h 0 (by simp)
        simpa using this
      simp only [rewriteAux, h0]
      rw [ih cs ?_]
      intro i hi
      have := h (i + 1) (by simp; omega)
      simpa [List.drop_succ_cons] using this

theorem rewriteAux_cons (f : Nat) (c : Char) (cs : List Char) :
    rewriteAux (f + 1) (c :: cs) =
      match matchAt (c :: cs) with
      | some (m, tail) => replacement m ++ rewriteAux f tail
      | none => c :: rewriteAux f cs := rfl

theorem rewriteAux_one : ∀ (a : List Char) (fuel : Nat) (m : MatchParts)
    (tail : List Char),
    (a ++ matchedText m ++ tail).length ≤ fuel →
    (∀ i, i < a.length → matchAt ((a ++ matchedText m ++ tail).drop i) = none) →
    matchAt (matchedText m ++ tail) = some (m, tail) →
    (∀ i, i ≤ tail.length → matchAt (tail.drop i) = none) →
    rewriteAux fuel (a ++ matchedText m ++ tail) = a ++ replacement m ++ tail := by
  intro a
  induction a with
  | nil =>
    intro fuel m tail hf _ hmid htl
    cases fuel with
    | zero =>
      exfalso
      have h1 := matchedText_pos m
      have h2 : (matchedText m).length ≤ (([] : List Char) ++ matchedText m ++ tail).length := by
        simp
      omega
    | succ f =>
      have hne : matchedText m ++ tail ≠ [] := by
        have := matchedText_pos m
        cases hl : matchedText m with
        | nil => rw [hl] at this; simp at this
        | cons d ds => simp [hl]
      cases hl : matchedText m ++ tail with
      | nil => exact absurd hl hne
      | cons d ds =>
        simp only [List.nil_append]
        rw [hl]
        have hmid2 : matchAt (d :: ds) = some (m, tail) := by rw [← hl]; exact hmid
        simp only [rewriteAux_cons, hmid2]
        rw [rewriteAux_nomatch f tail htl]
  | cons x a ih =>
    intro fuel m tail hf hpre hmid htl
    cases fuel with
    | zero =>
      exfalso
      simp at hf
    | succ f =>
      have h0 : matchAt (x :: (a ++ matchedText m ++ tail)) = none := by
        have := hpre 0 (by simp)
        simpa using this
      have hshape : (x :: a) ++ matchedText m ++ tail = x :: (a ++ matchedText m ++ tail) := by
        simp
      rw [hshape]
      simp only [rewriteAux_cons, h0]
      rw [ih f m tail ?_ ?_ hmid htl]
      · simp
      · have h2 := hf
        rw [hshape] at h2
        simpa using Nat.le_of_succ_le_succ h2
      · intro i hi
        have := hpre (i + 1) (by simp; omega)
        simpa [List.drop_succ_cons] using this

/-! ## Claim theorems -/

/-- Claim C10 (confirmed): the rewrite preserves the total character
count of every input text — each replacement has exactly the length of
the span it replaces, and text outside matches is copied through. -/
theorem c10_length (s : List Char) : ((rewrite s).1).length = s.length := by
  simp only [rewrite]
  exact rewriteAux_len s.length s le_rfl

/-- Claim C4 (confirmed): on a text with no occurrence of the five-step
shape (no position where `matchAt` succeeds), the rewrite returns the
input itself with `changed = false`.  The engine is a total function, so
it cannot raise. -/
theorem c4_noop_nonmatching (s : List Char)
    (h : ∀ i, i ≤ s.length → matchAt (s.drop i) = none) :
    rewrite s = (s, false) := by
  have ht : rewriteText s = s := rewriteAux_nomatch s.length s h
  simp [rewrite, ht]

/-- Witness for C4 at a concrete non-matching text. -/
theorem c4_noop_nonmatching_witness :
    (∀ i, i ≤ t4.length → matchAt (t4.drop i) = none) ∧ rewrite t4 = (t4, false) :=
  ⟨by decide, c4_noop_nonmatching t4 (by decide)⟩

/-- Claim C1 (corrected), counterexample: the rewrite is not idempotent
on every input.  For `t1c` the first pass relocates a hook line that
itself contains header-shaped text to a position where it joins with the
following text into a fresh occurrence of the pattern, so the second
pass changes the text again. -/
theorem c1_counterexample : (rewrite ((rewrite t1c).1)).2 = true := by decide

/-- Claim C1 (corrected), amended: a second pass over the output of the
Scenario A rewrite (an already-corrected file, Scenario D) finds nothing
to change; idempotence holds there though not universally. -/
theorem c1_idempotence_amended :
    rewrite ((rewrite scenA).1) = ((rewrite scenA).1, false) := by decide

/-- Claim C2 (corrected), counterexample: on the Scenario A input the
engine does not produce the output with the two preamble lines indented
one level deeper (four spaces). -/
theorem c2_counterexample : (rewrite scenA).1 ≠ scenADeep := by decide

/-- Claim C2 (corrected), amended: on the Scenario A input the engine
returns `changed = true` and reorders the block to header, `name,`,
`value,`, closer, then the two preamble lines at the same two-space
indentation they had in the input. -/
theorem c2_scenarioA_amended : rewrite scenA = (scenAOut, true) := by decide

/-- Claim C3 (confirmed): in the replacement of every matched block, the
two relocated hook lines each begin right after a newline with exactly
two spaces and contain no further newline — they sit at the body's
base indentation. -/
theorem c3_relocated_indent (s : List Char) (m : MatchParts) (rest : List Char)
    (h : matchAt s = some (m, rest)) :
    ('\n' ∉ m.r1 ∧ '\n' ∉ m.r2) ∧
    replacement m = g1Text m.name m.memo ++
      '\n' :: (paramsText m.params ++ closerText ++
        '\n' :: ' ' :: ' ' :: (litColors ++ m.r1 ++
          '\n' :: ' ' :: ' ' :: (litStylesWord ++ m.r2 ++ [ '\n' ]))) := by
  obtain ⟨-, wf⟩ := matchAt_sound _ _ _ h
  obtain ⟨-, -, -, -, h1nl, -, h2nl, -, -⟩ := wf
  refine ⟨⟨h1nl, h2nl⟩, ?_⟩
  simp [replacement, hooksText]

/-- Witness for C3 at the Scenario A match. -/
theorem c3_relocated_indent_witness : '\n' ∉ mA.r1 ∧ '\n' ∉ mA.r2 :=
  (c3_relocated_indent scenA mA restNl (by decide)).1

/-- Claim C6 (corrected), counterexample: a line that is not a bare
identifier (`foo bar baz`) is accepted as a param line and the block is
rewritten, `changed = true`. -/
theorem c6_counterexample : rewrite t6 = (t6out, true) := by decide

/-- Claim C6 (corrected), amended: a block is matched only when every
line between the blank separator and the closer consists of two spaces
followed by at least one further non-newline character — arbitrary
content, not only bare identifiers (`[^\n]+,?` accepts any such line). -/
theorem c6_param_shape_amended (s : List Char) (m : MatchParts) (rest : List Char)
    (h : matchAt s = some (m, rest)) :
    s = matchedText m ++ rest ∧ m.params ≠ [] ∧ ∀ p ∈ m.params, p ≠ [] ∧ '\n' ∉ p := by
  obtain ⟨hs, wf⟩ := matchAt_sound _ _ _ h
  obtain ⟨-, -, -, -, -, -, -, hpne, hpwf⟩ := wf
  exact ⟨hs, hpne, hpwf⟩

/-- Witness for C6's amended statement at the Scenario A match. -/
theorem c6_param_shape_amended_witness :
    scenA = matchedText mA ++ restNl ∧ mA.params ≠ [] ∧
      ∀ p ∈ mA.params, p ≠ [] ∧ '\n' ∉ p :=
  c6_param_shape_amended scenA mA restNl (by decide)

/-- Claim C7 (confirmed): every successful match decomposes its span as
header, newline, the two hook lines (the second newline-free), then
exactly two newline characters (one blank line), then immediately the
param lines (each non-blank), then immediately the closer; and the
Scenario B input, with no blank line after the preamble, is returned
unchanged with `changed = false`. -/
theorem c7_separator :
    (∀ s m rest, matchAt s = some (m, rest) →
      s = g1Text m.name m.memo ++ '\n' :: ' ' :: ' ' ::
        (litColors ++ m.r1 ++ '\n' :: ' ' :: ' ' :: (litStylesWord ++ m.r2) ++
          '\n' :: '\n' :: (paramsText m.params ++ closerText ++ rest)) ∧
      '\n' ∉ m.r2 ∧ m.params ≠ [] ∧ (∀ p ∈ m.params, p ≠ [] ∧ '\n' ∉ p)) ∧
    rewrite scenB = (scenB, false) := by
  constructor
  · intro s m rest h
    obtain ⟨hs, wf⟩ := matchAt_sound _ _ _ h
    obtain ⟨-, -, -, -, -, -, h2nl, hpne, hpwf⟩ := wf
    refine ⟨?_, h2nl, hpne, hpwf⟩
    rw [hs]
    simp [matchedText, hooksText]
  · decide

/-- Witness for C7 at the Scenario A match. -/
theorem c7_separator_witness : '\n' ∉ mA.r2 ∧ mA.params ≠ [] :=
  ⟨(c7_separator.1 scenA mA restNl (by decide)).2.1,
   (c7_separator.1 scenA mA restNl (by decide)).2.2.1⟩

/-- Claim C8 (corrected), counterexample: the header shape is matched
even when preceded by other text on its line — here behind a `//` line
comment — and the block is rewritten, `changed = true`, contradicting
the claim that such occurrences are never rewritten. -/
theorem c8_counterexample : rewrite t8 = (t8out, true) := by decide

/-- Claim C8 (corrected), amended: the pattern is not anchored to line
starts; the header is recognized wherever its character sequence occurs,
for example after other code on the same line. -/
theorem c8_midline_amended : rewrite t8b = (t8bOut, true) := by decide

/-- Claim C5 (confirmed): for a text with exactly one matched block —
no match starts inside the prefix `a`, the block starts right after `a`,
and no match occurs in the tail — the output is the prefix, the
replacement (of the same length as the matched span) and the tail; the
text outside the matched span is character-for-character unchanged.
Additionally a file with two non-overlapping blocks has both corrected
with all surrounding text intact. -/
theorem c5_frame :
    (∀ (a : List Char) (m : MatchParts) (tail : List Char),
      (∀ i, i < a.length → matchAt ((a ++ matchedText m ++ tail).drop i) = none) →
      matchAt (matchedText m ++ tail) = some (m, tail) →
      (∀ i, i ≤ tail.length → matchAt (tail.drop i) = none) →
      rewriteText (a ++ matchedText m ++ tail) = a ++ replacement m ++ tail ∧
      (replacement m).length = (matchedText m).length ∧
      (rewriteText (a ++ matchedText m ++ tail)).take a.length =
        (a ++ matchedText m ++ tail).take a.length ∧
      (rewriteText (a ++ matchedText m ++ tail)).drop
          (a.length + (matchedText m).length) =
        (a ++ matchedText m ++ tail).drop (a.length + (matchedText m).length)) ∧
    rewrite twoIn = (twoOut, true) := by
  constructor
  · intro a m tail hpre hmid htl
    have h := rewriteAux_one a (a ++ matchedText m ++ tail).length m tail le_rfl
      hpre hmid htl
    have hR : a.length + (matchedText m).length = (a ++ replacement m).length := by
      simp [repl_len]
    have hM : a.length + (matchedText m).length = (a ++ matchedText m).length := by
      simp
    have t1 : (a ++ replacement m ++ tail).take a.length = a := by
      rw [List.append_assoc]
      exact List.take_left _ _
    have t2 : (a ++ matchedText m ++ tail).take a.length = a := by
      rw [List.append_assoc]
      exact List.take_left _ _
    have l1 : (a ++ replacement m ++ tail).drop (a.length + (matchedText m).length)
        = tail := by
      rw [hR]
      exact List.drop_left _ _
    have l2 : (a ++ matchedText m ++ tail).drop (a.length + (matchedText m).length)
        = tail := by
      rw [hM]
      exact List.drop_left _ _
    refine ⟨h, repl_len m, ?_, ?_⟩
    · rw [show rewriteText (a ++ matchedText m ++ tail) = a ++ replacement m ++ tail
        from h, t1, t2]
    · rw [show rewriteText (a ++ matchedText m ++ tail) = a ++ replacement m ++ tail
        from h, l1, l2]
  · decide

/-- Witness for C5's single-block frame property at a concrete text. -/
theorem c5_frame_witness :
    rewriteText (aW ++ matchedText mW ++ tailW) = aW ++ replacement mW ++ tailW :=
  (c5_frame.1 aW mW tailW (by decide) (by decide) (by decide)).1

/-- Claim C9 (confirmed): the driver emits one outcome per listed file;
the aggregate count is exactly the number of `fixed` outcomes; a missing
file yields a `skipMissing` outcome and processing of the remaining
files continues identically; any other read failure likewise yields a
contained `error` outcome; and a file's outcome is `fixed` exactly when
it exists and its text changed (and was then written back). -/
theorem c9_driver :
    (∀ (fs : String → FSEntry) (files : List String),
      ((runBatch fs files).1).length = files.length) ∧
    (∀ (fs : String → FSEntry) (files : List String),
      (runBatch fs files).2.2 =
        (((runBatch fs files).1).filter (fun o => decide (o = Outcome.fixed))).length) ∧
    (∀ (fs : String → FSEntry) (p : String), fs p = FSEntry.missing →
      ∀ rest, runBatch fs (p :: rest) =
        (Outcome.skipMissing :: (runBatch fs rest).1, (runBatch fs rest).2.1,
          (runBatch fs rest).2.2)) ∧
    (∀ (fs : String → FSEntry) (p : String), fs p = FSEntry.err →
      ∀ rest, runBatch fs (p :: rest) =
        (Outcome.error :: (runBatch fs rest).1, (runBatch fs rest).2.1,
          (runBatch fs rest).2.2)) ∧
    (∀ (fs : String → FSEntry) (p : String),
      (fixFile fs p).1 = Outcome.fixed ↔
        ∃ t, fs p = FSEntry.ok t ∧ (rewrite t).2 = true) := by
  refine ⟨?_, ?_, ?_, ?_, ?_⟩
  · intro fs files
    induction files generalizing fs with
    | nil => rfl
    | cons p rest ih => simp [runBatch, ih]
  · intro fs files
    induction files generalizing fs with
    | nil => rfl
    | cons p rest ih =>
      by_cases hr : (fixFile fs p).1 = Outcome.fixed
      · simp [runBatch, hr, ih]
      · simp [runBatch, hr, ih]
  · intro fs p hmiss rest
    simp [runBatch, fixFile, hmiss]
  · intro fs p herr rest
    simp [runBatch, fixFile, herr]
  · intro fs p
    cases hfs : fs p with
    | missing => simp [fixFile, hfs]
    | err => simp [fixFile, hfs]
    | ok t =>
      by_cases hc : (rewrite t).2 = true
      · simp [fixFile, hfs, hc]
      · simp [fixFile, hfs, hc]

/-- Witness for C9's missing-file containment on a concrete filesystem. -/
theorem c9_driver_witness :
    runBatch fsW (pW :: []) =
      (Outcome.skipMissing :: (runBatch fsW []).1, (runBatch fsW []).2.1,
        (runBatch fsW []).2.2) :=
  c9_driver.2.2.1 fsW pW rfl []

end HookFix
